import Mathlib

/-!
Verification of the MFCC feature-extraction pipeline exercised by the
pykaldi MFCC tutorial notebook (`examples/notebooks/mfcc-extraction.ipynb`).

The notebook's processing loop is (per utterance):
  * skip the utterance when `wav.duration < opts.min_duration`;
  * `assert(wav.samp_freq >= sf)` and `assert(wav.samp_freq % sf == 0)`;
  * downsample: `s = s[:,::int(wav.samp_freq / sf)]` (numpy step slicing);
  * downmix to mono: `m = SubVector(mean(s, axis=0))`;
  * compute MFCC features: `f = mfcc.compute_features(m, sf, 1.0)`;
  * standardize: `f = SubMatrix(scale(f))`;
  * write: `writer[key] = f`.

Sample values are embedded as real numbers (the code computes in floating
point); sample rates and lengths are natural numbers.  The MFCC feature
computation (`kaldi`'s `Mfcc.compute_features`) and the standardizer
(`sklearn.preprocessing.scale`) are external libraries whose code is not in
this repository; their behaviour, where a claim depends on it, is modelled
from the specification (see the doc comments of the corresponding
definitions).
-/

/-- Error taxonomy of the spec (§7); `unsupportedRate` corresponds to a
failure of the notebook's rate asserts, `degenerateInput` to standardization
of an empty matrix. -/
inductive PipelineError : Type
  | unsupportedRate
  | degenerateInput
  deriving DecidableEq, Repr

/-- An audio buffer: sample rate in Hz and one list of samples per channel
(`wav.data()` is a channel × sample matrix). -/
structure AudioBuffer : Type where
  sampFreq : ℕ
  data : List (List ℝ)

/-- Number of sample frames: the length of the first channel (all channels
have equal length for a valid buffer). -/
def AudioBuffer.numSamples (wav : AudioBuffer) : ℕ :=
  (wav.data.headD []).length

/-- `wav.duration` = sample count / sample rate. -/
noncomputable def AudioBuffer.duration (wav : AudioBuffer) : ℝ :=
  (wav.numSamples : ℝ) / (wav.sampFreq : ℝ)

/-- numpy step slicing `xs[::k]`: keep the elements at indices
`0, k, 2*k, ...`.  This is the per-channel action of the notebook's
downsampling slice `s[:,::int(wav.samp_freq / sf)]`. -/
def everyKth {α : Type} (k : ℕ) : List α → List α
  | [] => []
  | x :: xs => x :: everyKth k (xs.drop (k - 1))
termination_by xs => xs.length
decreasing_by
  simp only [List.length_drop, List.length_cons]
  omega

/-- numpy `mean(s, axis=0)`: the arithmetic mean across channels, one value
per sample index; the output length is the (common) channel length, read off
the first channel. -/
noncomputable def columnMean (s : List (List ℝ)) : List ℝ :=
  (List.range (s.headD []).length).map
    (fun j => (s.map (fun c => c.getD j 0)).sum / (s.length : ℝ))

/-- The notebook's rate check and downsampling step: the two asserts
`wav.samp_freq >= sf` and `wav.samp_freq % sf == 0`, then the slice
`s[:,::int(wav.samp_freq / sf)]`.  An assert failure is the spec's
`UnsupportedRateError`. -/
def resampleStep (sf : ℕ) (wav : AudioBuffer) :
    Except PipelineError (List (List ℝ)) :=
  if sf ≤ wav.sampFreq ∧ wav.sampFreq % sf = 0 then
    .ok (wav.data.map (everyKth (wav.sampFreq / sf)))
  else
    .error .unsupportedRate

/-- The configuration the notebook hands to the external library: the
target sample rate `sf = mfcc_opts.frame_opts.samp_freq` (8000 in the
notebook), the frame length and shift in samples, the number of cepstral
coefficients, and the caller-side minimum-duration threshold. -/
structure MfccConfig : Type where
  sf : ℕ
  frameLength : ℕ
  frameShift : ℕ
  numCeps : ℕ
  minDuration : ℝ

/-- Modelled from the spec: the FrameExtractor's frame count
(`kaldi`'s feature windowing code is not in this repository).  Frames start
at multiples of the shift and a final partial frame shorter than the frame
length is dropped, so a signal of `n` samples yields `(n - len) / shift + 1`
frames when `n ≥ len` and `0` frames otherwise. -/
def numFrames (n len shift : ℕ) : ℕ :=
  if n < len then 0 else (n - len) / shift + 1

/-- Modelled from the spec: the FrameExtractor (not in this repository;
part of `kaldi`'s `Mfcc.compute_features`).  Frame `i` is the slice of
`len` samples starting at offset `i * shift`; the trailing partial frame
is dropped (no zero-padding). -/
def extractFrames (len shift : ℕ) (s : List ℝ) : List (List ℝ) :=
  (List.range (numFrames s.length len shift)).map
    (fun i => (s.drop (i * shift)).take len)

/-- Modelled from the spec: the per-frame feature computation
(windowing, spectral analysis, Mel filtering, cepstral transform), which
lives in the external `kaldi` library and not in this repository.  The
claims verified here depend only on it being a deterministic pure function
of the frame producing one coefficient row of length `numCeps`; the
concrete coefficient values below are a stand-in for the cepstral
coefficients. -/
noncomputable def frameFeature (numCeps : ℕ) (frame : List ℝ) : List ℝ :=
  (List.range numCeps).map (fun j => (frame.take (j + 1)).sum)

/-- Modelled from the spec: `mfcc.compute_features(m, sf, 1.0)` — one
feature row per analysis frame, assembled in frame order into the feature
matrix. -/
noncomputable def computeFeatures (cfg : MfccConfig) (s : List ℝ) :
    List (List ℝ) :=
  (extractFrames cfg.frameLength cfg.frameShift s).map
    (frameFeature cfg.numCeps)

/-- Per-column mean across rows of a feature matrix (column `j`). -/
noncomputable def colMean (f : List (List ℝ)) (j : ℕ) : ℝ :=
  (f.map (fun r => r.getD j 0)).sum / (f.length : ℝ)

/-- Per-column variance (population, divisor `n`) across rows. -/
noncomputable def colVar (f : List (List ℝ)) (j : ℕ) : ℝ :=
  (f.map (fun r => (r.getD j 0 - colMean f j) ^ 2)).sum / (f.length : ℝ)

open Classical in
/-- Per-column standard deviation, with a zero-variance column scaled by
`1` (a zero-variance column is left unscaled; spec §9 records this choice
as an open question and the reference `sklearn.preprocessing.scale`
replaces a zero scale by one). -/
noncomputable def colStd (f : List (List ℝ)) (j : ℕ) : ℝ :=
  if colVar f j = 0 then 1 else Real.sqrt (colVar f j)

/-- The standardized matrix: every entry recentred by its column mean and
divided by its column standard deviation.  Row width is the width of the
first row (all rows of a feature matrix have equal length). -/
noncomputable def scaledRows (f : List (List ℝ)) : List (List ℝ) :=
  f.map (fun r =>
    (List.range (f.headD []).length).map
      (fun j => (r.getD j 0 - colMean f j) / colStd f j))

/-- Modelled from the spec: the FeatureStandardizer
(`sklearn.preprocessing.scale`, not in this repository): per-column
zero-mean/unit-variance rescaling across rows, failing with
`DegenerateInputError` on a matrix with zero rows. -/
noncomputable def scaleMatrix (f : List (List ℝ)) :
    Except PipelineError (List (List ℝ)) :=
  if f.length = 0 then .error .degenerateInput else .ok (scaledRows f)

/-- The body of the notebook's loop after the duration filter: rate
asserts and downsampling, downmix to mono, MFCC computation,
standardization. -/
noncomputable def processOne (cfg : MfccConfig) (wav : AudioBuffer) :
    Except PipelineError (List (List ℝ)) :=
  (resampleStep cfg.sf wav).bind
    (fun s => scaleMatrix (computeFeatures cfg (columnMean s)))

open Classical in
/-- The caller-side dispatch on one `(key, wav)` pair: `none` when the
utterance is skipped by `if wav.duration < opts.min_duration: continue`,
otherwise the result of the core pipeline on it. -/
noncomputable def handleUtterance (cfg : MfccConfig) (wav : AudioBuffer) :
    Option (Except PipelineError (List (List ℝ))) :=
  if wav.duration < cfg.minDuration then none else some (processOne cfg wav)

/-- The notebook's reader/writer loop over the sequence of `(key, wav)`
pairs yielded by the audio source: skipped utterances write nothing, a
successful utterance writes `(key, features)`, and an uncaught error
(a Python assert or an exception from `scale`) aborts the loop.  Returns
the written records in order together with the aborting error, if any. -/
noncomputable def runLoop (cfg : MfccConfig) :
    List (String × AudioBuffer) →
      List (String × List (List ℝ)) × Option PipelineError
  | [] => ([], none)
  | (key, wav) :: rest =>
    match handleUtterance cfg wav with
    | none => runLoop cfg rest
    | some (.ok f) =>
      let r := runLoop cfg rest
      ((key, f) :: r.1, r.2)
    | some (.error e) => ([], some e)

/-! ### Properties of the downsampling slice -/

theorem everyKth_length {α : Type} (k : ℕ) (hk : 1 ≤ k) (xs : List α) :
    (everyKth k xs).length = (xs.length + k - 1) / k := by
  induction xs using everyKth.induct k with
  | case1 => simp [everyKth, Nat.div_eq_of_lt (by omega : k - 1 < k)]
  | case2 x xs ih =>
    rw [everyKth]
    simp only [List.length_cons, List.length_drop] at *
    rw [ih]
    rcases le_or_lt (k - 1) xs.length with h | h
    · have h1 : xs.length - (k - 1) + k - 1 = xs.length := by omega
      have h2 : xs.length + 1 + k - 1 = xs.length + k := by omega
      rw [h1, h2, Nat.add_div_right _ (by omega)]
    · have h1 : xs.length - (k - 1) + k - 1 = k - 1 := by omega
      have h2 : xs.length + 1 + k - 1 = xs.length + k := by omega
      rw [h1, h2, Nat.add_div_right _ (by omega),
        Nat.div_eq_of_lt (by omega : k - 1 < k),
        Nat.div_eq_of_lt (by omega : xs.length < k)]

theorem everyKth_getD {α : Type} (k : ℕ) (hk : 1 ≤ k) (xs : List α) (d : α)
    (i : ℕ) : (everyKth k xs).getD i d = xs.getD (i * k) d := by
  induction xs using everyKth.induct k generalizing i with
  | case1 => simp [everyKth]
  | case2 x xs ih =>
    rw [everyKth]
    cases i with
    | zero => simp
    | succ i =>
      rw [List.getD_cons_succ, ih i, Nat.succ_mul]
      have h1 : (xs.drop (k - 1)).getD (i * k) d = xs.getD (k - 1 + i * k) d := by
        simp [List.getD, List.getElem?_drop]
      have h2 : i * k + k = (k - 1 + i * k) + 1 := by omega
      rw [h1, h2, List.getD_cons_succ]

theorem everyKth_headD {α : Type} (k : ℕ) (xs : List α) (d : α) :
    (everyKth k xs).headD d = xs.headD d := by
  cases xs with
  | nil => simp [everyKth]
  | cons x xs => rw [everyKth]; rfl

/-- C1 counterexample: a valid buffer at 16000 Hz (`k = 2` times the target
rate 8000 Hz) with a single one-sample channel.  The downsampling step
keeps that sample, so the output channel length is `1`, while
`floor(input_length / k) = floor(1 / 2) = 0`. -/
theorem C1_floor_length_counterexample :
    resampleStep 8000 ⟨16000, [[(1 : ℝ)]]⟩ = .ok [[(1 : ℝ)]] ∧
    ¬ ([(1 : ℝ)].length = [(1 : ℝ)].length / (16000 / 8000)) := by
  constructor
  · rw [resampleStep, if_pos (by norm_num)]
    norm_num [everyKth]
  · norm_num

/-- C1 (amended): for a valid buffer with `source_rate = k * sf`
(`k ≥ 1`, `sf ≥ 1`) the downsampling step succeeds and every output
channel has length `ceil(input_length / k)` — written `(n + k - 1) / k` in
natural-number arithmetic — not `floor(input_length / k)`. -/
theorem C1_resampler_output_length (sf k : ℕ) (wav : AudioBuffer)
    (hsf : 1 ≤ sf) (hk : 1 ≤ k) (hrate : wav.sampFreq = k * sf) :
    ∃ s, resampleStep sf wav = .ok s ∧
      ∀ i, (s.getD i []).length =
        ((wav.data.getD i []).length + k - 1) / k := by
  have hdiv : wav.sampFreq / sf = k := by
    rw [hrate]; exact Nat.mul_div_cancel k hsf
  refine ⟨wav.data.map (everyKth (wav.sampFreq / sf)), ?_, ?_⟩
  · rw [resampleStep, if_pos]
    exact ⟨hrate ▸ Nat.le_mul_of_pos_left sf (by omega),
      hrate ▸ Nat.mul_mod_left k sf⟩
  · intro i
    rcases Nat.lt_or_ge i wav.data.length with h | h
    · have : (wav.data.map (everyKth (wav.sampFreq / sf))).getD i [] =
          everyKth (wav.sampFreq / sf) (wav.data.getD i []) := by
        simp [List.getD, List.getElem?_map, List.getElem?_eq_getElem h]
      rw [this, hdiv, everyKth_length k hk]
    · have h1 : (wav.data.map (everyKth (wav.sampFreq / sf))).getD i [] = [] := by
        simp [List.getD, List.getElem?_eq_none (by simpa using h)]
      have h2 : wav.data.getD i [] = [] := by
        simp [List.getD, List.getElem?_eq_none h]
      rw [h1, h2, List.length_nil, Nat.zero_add,
        Nat.div_eq_of_lt (by omega : k - 1 < k)]

/-- C1 witness: at 16000 Hz with target 8000 Hz (`k = 2`) and a
three-sample channel, the output channel has `ceil(3 / 2) = 2` samples. -/
theorem C1_resampler_output_length_witness :
    ∃ s, resampleStep 8000 ⟨16000, [[(1 : ℝ), 2, 3]]⟩ = .ok s ∧
      ∀ i, (s.getD i []).length =
        (((⟨16000, [[(1 : ℝ), 2, 3]]⟩ : AudioBuffer).data.getD i []).length
          + 2 - 1) / 2 :=
  C1_resampler_output_length 8000 2 ⟨16000, [[(1 : ℝ), 2, 3]]⟩
    (by norm_num) (by norm_num) (by norm_num)

/-- C10: for decimation ratio `k ≥ 1`, the downsampling slice keeps the
input samples at indices `i * k`: the output has length `ceil(n / k)`,
its `i`-th sample is the input's `(i * k)`-th sample, and the first sample
of each channel is retained. -/
theorem C10_downsample_indexing (k : ℕ) (hk : 1 ≤ k) (c : List ℝ) (d : ℝ) :
    (everyKth k c).length = (c.length + k - 1) / k ∧
    (∀ i, (everyKth k c).getD i d = c.getD (i * k) d) ∧
    (everyKth k c).headD d = c.headD d :=
  ⟨everyKth_length k hk c, fun i => everyKth_getD k hk c d i,
    everyKth_headD k c d⟩

/-- C10 witness at `k = 2`, channel `[5, 6, 7]`: output `[5, 7]` of length
`ceil(3 / 2) = 2`, sample `i` is input sample `2 * i`, first sample kept. -/
theorem C10_downsample_indexing_witness :
    (everyKth 2 [(5 : ℝ), 6, 7]).length = (3 + 2 - 1) / 2 ∧
    (∀ i, (everyKth 2 [(5 : ℝ), 6, 7]).getD i 0 =
      [(5 : ℝ), 6, 7].getD (i * 2) 0) ∧
    (everyKth 2 [(5 : ℝ), 6, 7]).headD 0 = [(5 : ℝ), 6, 7].headD 0 := by
  have h := C10_downsample_indexing 2 (by norm_num) [(5 : ℝ), 6, 7] 0
  simpa using h

/-- C2: the resample step requires `source_rate >= sf` and
`source_rate % sf == 0` (the notebook's two asserts); it fails exactly when
one of the two conditions is violated, and the only error it can produce
is `UnsupportedRateError`. -/
theorem C2_rate_check (sf : ℕ) (wav : AudioBuffer) (hsf : 1 ≤ sf) :
    (resampleStep sf wav = .error .unsupportedRate ↔
      ¬ (sf ≤ wav.sampFreq ∧ wav.sampFreq % sf = 0)) ∧
    (∀ e, resampleStep sf wav = .error e → e = .unsupportedRate) := by
  rw [resampleStep]
  split
  · next h =>
    exact ⟨iff_of_false (by simp) (not_not_intro h), fun e he => by simp at he⟩
  · next h =>
    exact ⟨iff_of_true rfl h, fun e he => by
      simpa using he.symm⟩

/-- C2 witness: 12000 Hz is at least the 8000 Hz target but not an
integer multiple of it, so the resample step fails with the rate error. -/
theorem C2_rate_check_witness :
    resampleStep 8000 ⟨12000, [[(1 : ℝ)]]⟩ = .error .unsupportedRate :=
  (C2_rate_check 8000 ⟨12000, [[(1 : ℝ)]]⟩ (by norm_num)).1.mpr (by norm_num)

/-- C4: an utterance is handed to the core pipeline if and only if its
duration is not below the configured minimum-duration threshold; below the
threshold it is skipped (`continue`) before any core stage runs. -/
theorem C4_duration_filter (cfg : MfccConfig) (wav : AudioBuffer) :
    (handleUtterance cfg wav = some (processOne cfg wav) ↔
      ¬ (wav.duration < cfg.minDuration)) ∧
    (handleUtterance cfg wav = none ↔ wav.duration < cfg.minDuration) := by
  rw [handleUtterance]
  split
  · next h => exact ⟨iff_of_false (by simp) (not_not_intro h), iff_of_true rfl h⟩
  · next h => exact ⟨iff_of_true rfl h, iff_of_false (by simp) h⟩

theorem columnMean_single (c : List ℝ) : columnMean [c] = c := by
  apply List.ext_getElem
  · simp [columnMean]
  · intro i h1 h2
    simp [columnMean, List.getD, List.getElem?_eq_getElem h2]

/-- C5: downmixing a single-channel buffer is a no-op: the mean across the
one channel returns precisely that channel's sample values. -/
theorem C5_downmix_single_channel (c : List ℝ) : columnMean [c] = c :=
  columnMean_single c

/-- C3: the standardizer fails with `DegenerateInputError` on a zero-row
matrix, and an empty audio buffer (zero samples) passing the rate check
reaches the standardizer with a zero-row feature matrix, so the whole
pipeline run ends in `DegenerateInputError` (no division by zero). -/
theorem C3_degenerate_input (f : List (List ℝ)) (cfg : MfccConfig)
    (wav : AudioBuffer) (hf : f.length = 0) (hlen : 1 ≤ cfg.frameLength)
    (hge : cfg.sf ≤ wav.sampFreq) (hmod : wav.sampFreq % cfg.sf = 0)
    (hempty : wav.numSamples = 0) :
    scaleMatrix f = .error .degenerateInput ∧
    processOne cfg wav = .error .degenerateInput := by
  constructor
  · rw [scaleMatrix, if_pos hf]
  · rw [processOne, resampleStep,
      if_pos (show cfg.sf ≤ wav.sampFreq ∧ wav.sampFreq % cfg.sf = 0 from
        ⟨hge, hmod⟩)]
    simp only [Except.bind]
    have hmono :
        columnMean (wav.data.map (everyKth (wav.sampFreq / cfg.sf))) = [] := by
      have h0 : (wav.data.headD []).length = 0 := by
        simpa [AudioBuffer.numSamples] using hempty
      rcases hdata : wav.data with _ | ⟨c, cs⟩
      · rw [columnMean]
        rfl
      · rw [hdata] at h0
        have hc : c = [] := List.length_eq_zero.mp (by simpa using h0)
        subst hc
        rw [columnMean]
        have he : everyKth (wav.sampFreq / cfg.sf) ([] : List ℝ) = [] := by
          rw [everyKth]
        simp [he]
    rw [hmono]
    have hframes : computeFeatures cfg [] = [] := by
      rw [computeFeatures, extractFrames]
      have : numFrames (0 : ℕ) cfg.frameLength cfg.frameShift = 0 := by
        rw [numFrames, if_pos (by omega)]
      simp [this]
    rw [hframes, scaleMatrix]
    simp

/-- C3 witness: the notebook configuration (target 8000 Hz, 25 ms frames =
200 samples, 10 ms shift = 80 samples, 13 coefficients) on a 16000 Hz
buffer with one empty channel. -/
theorem C3_degenerate_input_witness :
    scaleMatrix ([] : List (List ℝ)) = .error .degenerateInput ∧
    processOne ⟨8000, 200, 80, 13, 0⟩ ⟨16000, [[]]⟩ =
      .error .degenerateInput :=
  C3_degenerate_input [] ⟨8000, 200, 80, 13, 0⟩ ⟨16000, [[]]⟩ rfl
    (by norm_num) (by norm_num) (by norm_num) rfl

/-- C6: the pipeline is a pure, deterministic function of its input and
configuration — two runs of the reader/writer loop on the same source
sequence with the same configuration produce identical outputs. -/
theorem C6_pipeline_deterministic (cfg cfg' : MfccConfig)
    (src src' : List (String × AudioBuffer)) (hcfg : cfg = cfg')
    (hsrc : src = src') : runLoop cfg src = runLoop cfg' src' := by
  subst hcfg
  subst hsrc
  rfl

/-- C6 witness: two identical runs on the notebook configuration and a
concrete one-utterance source coincide. -/
theorem C6_pipeline_deterministic_witness :
    runLoop ⟨8000, 200, 80, 13, 0⟩ [("TEST", ⟨16000, [[1]]⟩)] =
      runLoop ⟨8000, 200, 80, 13, 0⟩ [("TEST", ⟨16000, [[1]]⟩)] :=
  C6_pipeline_deterministic ⟨8000, 200, 80, 13, 0⟩ ⟨8000, 200, 80, 13, 0⟩
    [("TEST", ⟨16000, [[1]]⟩)] [("TEST", ⟨16000, [[1]]⟩)] rfl rfl

/-- The record the loop writes for one `(key, wav)` pair: `(key, features)`
when the pair passes the duration filter and the pipeline succeeds on it,
nothing otherwise. -/
noncomputable def writtenRecord (cfg : MfccConfig)
    (p : String × AudioBuffer) : Option (String × List (List ℝ)) :=
  match handleUtterance cfg p.2 with
  | some (.ok f) => some (p.1, f)
  | _ => none

/-- The number of `(key, wav)` pairs the loop actually reads from the
source: all of them when no utterance errors, otherwise the pairs up to
and including the first erroring one (the uncaught exception stops the
`for` loop there, so later pairs are never read). -/
noncomputable def pairsRead (cfg : MfccConfig) :
    List (String × AudioBuffer) → ℕ
  | [] => 0
  | (_, wav) :: rest =>
    match handleUtterance cfg wav with
    | none => pairsRead cfg rest + 1
    | some (.ok _) => pairsRead cfg rest + 1
    | some (.error _) => 1

/-- C9: for every source sequence, the loop's written records are exactly
the filter-and-process map of the pairs it actually reads: every read pair
that passes the duration filter and succeeds through the pipeline
contributes exactly one `(key, features)` record, keyed by the key under
which the buffer was read, in source order; filtered-out pairs and the
erroring pair (if any) contribute nothing, and pairs after an error are
never read. -/
theorem C9_loop_written_records (cfg : MfccConfig)
    (src : List (String × AudioBuffer)) :
    (runLoop cfg src).1 =
      (src.take (pairsRead cfg src)).filterMap (writtenRecord cfg) := by
  induction src with
  | nil => rfl
  | cons p rest ih =>
    obtain ⟨key, wav⟩ := p
    rcases hcase : handleUtterance cfg wav with _ | e | f
    · have hw : writtenRecord cfg (key, wav) = none := by
        simp [writtenRecord, hcase]
      simp only [runLoop, pairsRead, hcase, List.take_succ_cons,
        List.filterMap_cons, hw, ih]
    · have hw : writtenRecord cfg (key, wav) = none := by
        simp [writtenRecord, hcase]
      simp only [runLoop, pairsRead, hcase, List.take_succ_cons,
        List.filterMap_cons, hw, List.take_zero, List.filterMap_nil]
    · have hw : writtenRecord cfg (key, wav) = some (key, f) := by
        simp [writtenRecord, hcase]
      simp only [runLoop, pairsRead, hcase, List.take_succ_cons,
        List.filterMap_cons, hw, ih]

/-- Concrete evaluation of the success path: the pipeline on a
three-sample utterance at 2 Hz with target rate 2 Hz, two-sample frames
and one-sample shift. -/
theorem processOne_concrete :
    processOne ⟨2, 2, 1, 1, 1⟩ ⟨2, [[(1 : ℝ), 2, 3]]⟩ =
      .ok (scaledRows [[(1 : ℝ)], [2]]) := by
  rw [processOne, resampleStep, if_pos (by norm_num)]
  simp only [Except.bind]
  have h1 : everyKth ((2 : ℕ) / 2) [(1 : ℝ), 2, 3] = [(1 : ℝ), 2, 3] := by
    norm_num [everyKth]
  have h2 : columnMean [[(1 : ℝ), 2, 3]] = [(1 : ℝ), 2, 3] :=
    columnMean_single _
  have h3 : computeFeatures ⟨2, 2, 1, 1, 1⟩ [(1 : ℝ), 2, 3] =
      [[(1 : ℝ)], [2]] := by
    rw [computeFeatures, extractFrames]
    norm_num [numFrames, List.range_succ, frameFeature]
  rw [List.map_cons, List.map_nil, h1, h2, h3, scaleMatrix]
  norm_num

/-- Concrete evaluation of an aborting run: utterance `"A"` passes and
succeeds, utterance `"B"` (3 Hz, not a multiple of the 2 Hz target) is
read and fails the rate check; the loop writes exactly the record for
`"A"` and stops with the rate error. -/
theorem runLoop_abort_on_error_concrete :
    runLoop ⟨2, 2, 1, 1, 1⟩
        [("A", ⟨2, [[(1 : ℝ), 2, 3]]⟩), ("B", ⟨3, [[(1 : ℝ), 2, 3]]⟩)] =
      ([("A", scaledRows [[(1 : ℝ)], [2]])], some .unsupportedRate) := by
  have hA : handleUtterance ⟨2, 2, 1, 1, 1⟩ ⟨2, [[(1 : ℝ), 2, 3]]⟩ =
      some (.ok (scaledRows [[(1 : ℝ)], [2]])) := by
    rw [handleUtterance,
      if_neg (show ¬ ((AudioBuffer.mk 2 [[(1 : ℝ), 2, 3]]).duration < 1) from
        by norm_num [AudioBuffer.duration, AudioBuffer.numSamples]),
      processOne_concrete]
  have hB : handleUtterance ⟨2, 2, 1, 1, 1⟩ ⟨3, [[(1 : ℝ), 2, 3]]⟩ =
      some (.error .unsupportedRate) := by
    rw [handleUtterance,
      if_neg (show ¬ ((AudioBuffer.mk 3 [[(1 : ℝ), 2, 3]]).duration < 1) from
        by norm_num [AudioBuffer.duration, AudioBuffer.numSamples]),
      processOne, resampleStep, if_neg (by norm_num)]
    rfl
  simp only [runLoop, hA, hB]

/-- C8: a signal of length exactly `frame_length` yields exactly one
analysis frame; a strictly shorter signal yields zero frames (an empty
matrix downstream), not an error. -/
theorem C8_frame_extractor_edge_cases (len shift : ℕ) (s t : List ℝ)
    (hexact : s.length = len) (hshort : t.length < len) :
    (extractFrames len shift s).length = 1 ∧
    extractFrames len shift t = [] := by
  constructor
  · rw [extractFrames, numFrames, hexact, if_neg (lt_irrefl len)]
    simp
  · rw [extractFrames, numFrames, if_pos hshort]
    simp

/-- C8 witness: with a two-sample frame length, a two-sample signal gives
one frame and a one-sample signal gives none. -/
theorem C8_frame_extractor_edge_cases_witness :
    (extractFrames 2 1 [(0 : ℝ), 0]).length = 1 ∧
    extractFrames 2 1 [(0 : ℝ)] = [] :=
  C8_frame_extractor_edge_cases 2 1 [(0 : ℝ), 0] [(0 : ℝ)] rfl (by norm_num)

theorem sum_map_sub_mul (l : List ℝ) (a b : ℝ) :
    (l.map (fun x => (x - a) * b)).sum = (l.sum - l.length * a) * b := by
  induction l with
  | nil => simp
  | cons x xs ih =>
    rw [List.map_cons, List.sum_cons, ih, List.sum_cons, List.length_cons]
    push_cast
    ring

theorem sum_map_sub_mul_sq (l : List ℝ) (a b : ℝ) :
    (l.map (fun x => ((x - a) * b) ^ 2)).sum =
      (l.map (fun x => (x - a) ^ 2)).sum * b ^ 2 := by
  induction l with
  | nil => simp
  | cons x xs ih =>
    rw [List.map_cons, List.sum_cons, ih, List.map_cons, List.sum_cons]
    ring

theorem getD_range_map (m j : ℕ) (hj : j < m) (fn : ℕ → ℝ) (d : ℝ) :
    ((List.range m).map fn).getD j d = fn j := by
  simp [List.getD, List.getElem?_map, List.getElem?_range hj]

theorem colVar_nonneg (f : List (List ℝ)) (j : ℕ) : 0 ≤ colVar f j := by
  rw [colVar]
  apply div_nonneg
  · apply List.sum_nonneg
    intro x hx
    obtain ⟨r, _, rfl⟩ := List.mem_map.mp hx
    positivity
  · positivity

/-- C7: on a feature matrix with at least one row, for every column `j`
(within the matrix width) whose variance is nonzero, the standardized
matrix has column mean `0`, column variance `1`, and hence column standard
deviation `sqrt 1 = 1` — exactly, since the embedding computes in real
arithmetic (the floating-point tolerance of the claim). -/
theorem C7_standardizer_column_stats (f : List (List ℝ)) (j : ℕ)
    (hrows : 1 ≤ f.length) (hj : j < (f.headD []).length)
    (hvar : colVar f j ≠ 0) :
    colMean (scaledRows f) j = 0 ∧ colVar (scaledRows f) j = 1 ∧
    Real.sqrt (colVar (scaledRows f) j) = 1 := by
  set n : ℝ := (f.length : ℝ) with hn
  have hnpos : (0 : ℝ) < n := by
    rw [hn]; exact_mod_cast Nat.lt_of_lt_of_le Nat.zero_lt_one hrows
  have hnne : n ≠ 0 := ne_of_gt hnpos
  set μ : ℝ := colMean f j with hμ
  set v : ℝ := colVar f j with hv
  have hvpos : 0 < v := lt_of_le_of_ne (colVar_nonneg f j) (Ne.symm hvar)
  set σ : ℝ := colStd f j with hσdef
  have hσ : σ = Real.sqrt v := by rw [hσdef, colStd, if_neg hvar]
  have hσpos : 0 < σ := hσ ▸ Real.sqrt_pos.mpr hvpos
  have hσne : σ ≠ 0 := ne_of_gt hσpos
  have hσsq : σ ^ 2 = v := by rw [hσ]; exact Real.sq_sqrt (le_of_lt hvpos)
  have hpoint : ∀ r : List ℝ,
      ((List.range (f.headD []).length).map
        (fun j' => (r.getD j' 0 - colMean f j') / colStd f j')).getD j 0 =
      (r.getD j 0 - μ) * σ⁻¹ := by
    intro r
    rw [getD_range_map _ _ hj, div_eq_mul_inv, hμ, hσdef]
  have hglen : (scaledRows f).length = f.length := by
    rw [scaledRows, List.length_map]
  have hcol : (scaledRows f).map (fun r => r.getD j 0) =
      (f.map (fun r => r.getD j 0)).map (fun x => (x - μ) * σ⁻¹) := by
    rw [scaledRows, List.map_map, List.map_map]
    exact List.map_congr_left (fun r _ => hpoint r)
  set S : ℝ := (f.map (fun r => r.getD j 0)).sum with hS
  have hμS : μ = S / n := by rw [hμ, colMean]
  have hSlen : ((f.map (fun r => r.getD j 0)).length : ℝ) = n := by
    rw [List.length_map]
  have hmean : colMean (scaledRows f) j = 0 := by
    rw [colMean, hcol, sum_map_sub_mul, hSlen, hglen, ← hS, ← hn, hμS]
    field_simp
  have hvar1 : colVar (scaledRows f) j = 1 := by
    have hvS : (f.map (fun r => (r.getD j 0 - μ) ^ 2)).sum = v * n := by
      rw [hv, colVar, ← hμ, ← hn]
      field_simp
    have hcolsq : (scaledRows f).map (fun r => (r.getD j 0 - colMean (scaledRows f) j) ^ 2) =
        (f.map (fun r => r.getD j 0)).map (fun x => ((x - μ) * σ⁻¹) ^ 2) := by
      rw [hmean, scaledRows, List.map_map, List.map_map]
      refine List.map_congr_left (fun r _ => ?_)
      simp only [Function.comp_apply, sub_zero]
      rw [hpoint r]
    have hsq : (f.map (fun r => r.getD j 0)).map (fun x => (x - μ) ^ 2) =
        f.map (fun r => (r.getD j 0 - μ) ^ 2) := by
      rw [List.map_map]
      rfl
    rw [colVar, hcolsq, sum_map_sub_mul_sq, hsq, hvS, hglen, ← hn]
    rw [← hσsq]
    field_simp
  exact ⟨hmean, hvar1, by rw [hvar1]; exact Real.sqrt_one⟩

/-- C7 witness: the one-column matrix with rows `[0]` and `[2]` (mean 1,
variance 1): its standardization has column mean 0 and standard
deviation 1. -/
theorem C7_standardizer_column_stats_witness :
    colMean (scaledRows [[(0 : ℝ)], [2]]) 0 = 0 ∧
    colVar (scaledRows [[(0 : ℝ)], [2]]) 0 = 1 ∧
    Real.sqrt (colVar (scaledRows [[(0 : ℝ)], [2]]) 0) = 1 :=
  C7_standardizer_column_stats [[(0 : ℝ)], [2]] 0 (by norm_num) (by norm_num)
    (by norm_num [colVar, colMean])
